import Mathlib

/-
Verification of the Mediphant retrieval-and-synthesis pipeline.

The development shallowly embeds the TypeScript sources:
  * the FAQ route (FAQSearchService: in-memory fallback search, Pinecone
    vector path with sticky per-instance downgrade, answer synthesis, GET
    handler that builds a fresh service per request);
  * the fixed-window RateLimiter (lib/rateLimit.ts);
  * the bounded QueryHistoryStore (lib/queryHistory.ts);
  * the interactions POST handler (api/interactions/route.ts) and
    checkInteraction (lib/interactions.ts).

Strings are modelled as `List Char`; JavaScript string operations
(toLowerCase, split on the regexp for runs of whitespace, includes, trim)
are embedded character by character.  Timestamps are integers, JS floating
point relevance scores are rationals, external calls (OpenAI, Pinecone)
are oracles passed explicitly as `Option` results where `none` models a
thrown error.
-/

namespace Mediphant

/-! ### JavaScript string primitives -/

/-- The character class of the JavaScript regexp for whitespace:
tab through carriage return, space, no-break space and the Unicode
space separators, line/paragraph separators and the BOM. -/
def jsIsWs (c : Char) : Bool :=
  decide (c.toNat = 9 ∨ c.toNat = 10 ∨ c.toNat = 11 ∨ c.toNat = 12 ∨ c.toNat = 13 ∨
    c.toNat = 32 ∨ c.toNat = 160 ∨ c.toNat = 5760 ∨
    (8192 ≤ c.toNat ∧ c.toNat ≤ 8202) ∨
    c.toNat = 8232 ∨ c.toNat = 8233 ∨ c.toNat = 8239 ∨ c.toNat = 8287 ∨
    c.toNat = 12288 ∨ c.toNat = 65279)

/-- ASCII lowercasing of one character, as `toLowerCase` acts on the
ASCII corpus and queries at hand. -/
def jsToLower (c : Char) : Char :=
  if 65 ≤ c.toNat ∧ c.toNat ≤ 90 then Char.ofNat (c.toNat + 32) else c

/-- `s.toLowerCase()`. -/
def lower (s : List Char) : List Char := s.map jsToLower

/-- Is `small` a prefix of `big`? -/
def isPrefixB : List Char → List Char → Bool
  | [], _ => true
  | _ :: _, [] => false
  | c :: cs, d :: ds => c == d && isPrefixB cs ds

/-- `big.includes(small)`: does `small` occur contiguously inside `big`? -/
def includesB : List Char → List Char → Bool
  | big, small =>
    isPrefixB small big ||
      match big with
      | [] => false
      | _ :: rest => includesB rest small

/-- One step of `split` on runs of whitespace.  `inGap` records whether the
previous character belonged to a whitespace run, `acc` holds the reversed
characters of the piece currently being read. -/
def jsSplitWsAux : Bool → List Char → List Char → List (List Char)
  | _, acc, [] => [acc.reverse]
  | inGap, acc, c :: cs =>
    if jsIsWs c then
      if inGap then jsSplitWsAux true acc cs
      else acc.reverse :: jsSplitWsAux true [] cs
    else jsSplitWsAux false (c :: acc) cs

/-- `s.split` on the regexp matching maximal nonempty whitespace runs: the
result lists the (possibly empty) pieces between consecutive runs.  In
particular the empty string splits into `[""]`, and leading or trailing
whitespace contributes an empty piece. -/
def jsSplitWs (s : List Char) : List (List Char) := jsSplitWsAux false [] s

/-- `s.trim()`. -/
def jsTrim (s : List Char) : List Char :=
  ((s.dropWhile jsIsWs).reverse.dropWhile jsIsWs).reverse

/-- Modelled from the spec: “Lowercase and whitespace-tokenize the query
into a sequence of terms (empty query ⇒ empty term sequence)” — the usual
whitespace tokenizer that produces only the maximal nonempty runs of
non-whitespace characters, written independently of the code. -/
def specTokAux : List Char → List Char → List (List Char)
  | acc, [] => if acc = [] then [] else [acc.reverse]
  | acc, c :: cs =>
    if jsIsWs c then
      if acc = [] then specTokAux [] cs else acc.reverse :: specTokAux [] cs
    else specTokAux (c :: acc) cs

/-- Modelled from the spec: whitespace tokenization into nonempty terms. -/
def specTokenize (s : List Char) : List (List Char) := specTokAux [] s

/-! ### The fallback corpus and lexical search (app/api/faq/route.ts) -/

/-- The five-chunk `FALLBACK_CORPUS` of the FAQ route. -/
def FALLBACK_CORPUS : List (List Char) :=
  [("Medication adherence improves outcomes in diabetes; missed doses are a leading cause of poor control.").data,
   ("Keep an up-to-date medication list; reconcile after every clinic or hospital visit.").data,
   ("Use a pill organizer or phone reminders to reduce unintentional nonadherence.").data,
   ("High-risk interactions include anticoagulants with NSAIDs, ACE inhibitors with potassium-sparing diuretics, and metformin around contrast imaging.").data,
   ("When in doubt, consult a pharmacist or clinician; online lists can be incomplete.").data]

/-- `SearchMatch` of the FAQ route; the JS float score is modelled as a
rational. -/
structure SearchMatch where
  text : List Char
  score : ℚ
deriving DecidableEq, Repr

/-- The query terms of `searchWithFallback`:
`query.toLowerCase().split` on whitespace runs. -/
def queryTermsOf (query : List Char) : List (List Char) := jsSplitWs (lower query)

/-- `queryTerms.filter(term => textTerms.some(textTerm =>
textTerm.includes(term) || term.includes(textTerm)))` for one chunk. -/
def chunkMatchedTerms (queryTerms : List (List Char)) (text : List Char) :
    List (List Char) :=
  let textTerms := jsSplitWs (lower text)
  queryTerms.filter fun term =>
    textTerms.any fun textTerm => includesB textTerm term || includesB term textTerm

/-- `matches.length / queryTerms.length`, the relevance score of one chunk. -/
def chunkScore (queryTerms : List (List Char)) (text : List Char) : ℚ :=
  ((chunkMatchedTerms queryTerms text).length : ℚ) / (queryTerms.length : ℚ)

/-- The comparator `(a, b) => b.score - a.score`: `a` may stay before `b`
exactly when `b.score ≤ a.score`.  JS `Array.prototype.sort` is stable, so
the sort is modelled by the stable `List.mergeSort` on this relation. -/
def matchLe (a b : SearchMatch) : Bool := decide (b.score ≤ a.score)

/-- `FAQSearchService.searchWithFallback`: score every corpus chunk, keep
strictly positive scores, sort by descending score (stably, so ties keep
corpus order) and return the first three. -/
def searchWithFallback (query : List Char) : List SearchMatch :=
  let queryTerms := queryTermsOf query
  let scores := FALLBACK_CORPUS.map fun text =>
    SearchMatch.mk text (chunkScore queryTerms text)
  ((scores.filter fun m => decide (0 < m.score)).mergeSort matchLe).take 3

/-! ### FAQSearchService: vector path with sticky downgrade -/

/-- Which branch of `search` produced the matches of a request. -/
inductive SearchPath where
  | vector
  | fallback
deriving DecidableEq, Repr

/-- The mutable state of one `FAQSearchService` instance: whether the
Pinecone/OpenAI clients were constructed, and the `useFallback` flag. -/
structure FAQSearchService where
  hasClients : Bool
  useFallback : Bool
deriving DecidableEq, Repr

/-- The constructor: with both API keys present the clients are built and
`useFallback` stays false; otherwise (or when client construction throws)
the instance starts in fallback mode. -/
def FAQSearchService.construct (credsPresent : Bool) : FAQSearchService :=
  { hasClients := credsPresent, useFallback := !credsPresent }

/-- `search(query)`: in fallback mode, use the in-memory search directly.
Otherwise attempt the Pinecone path, whose outcome is the oracle
`vectorOutcome` (`some ms` = the mapped, filtered matches; `none` = any
thrown embedding/vector error); on failure set `useFallback` and recompute
via the fallback for this same request. -/
def FAQSearchService.search (svc : FAQSearchService)
    (vectorOutcome : Option (List SearchMatch)) (query : List Char) :
    FAQSearchService × SearchPath × List SearchMatch :=
  if svc.useFallback then (svc, SearchPath.fallback, searchWithFallback query)
  else
    match vectorOutcome with
    | some ms => (svc, SearchPath.vector, ms)
    | none =>
        ({ svc with useFallback := true }, SearchPath.fallback,
          searchWithFallback query)

/-- A sequence of `search` calls on one and the same service instance,
threading its state; returns the branch each call took and the final
state. -/
def FAQSearchService.searchRun (svc : FAQSearchService) :
    List (Option (List SearchMatch) × List Char) → List SearchPath × FAQSearchService
  | [] => ([], svc)
  | (o, q) :: rest =>
    let r := svc.search o q
    let rec' := FAQSearchService.searchRun r.1 rest
    (r.2.1 :: rec'.1, rec'.2)

/-- The fixed no-information disclaimer of `synthesizeAnswer` (the
apostrophe is spelled via its code point). -/
def NO_INFO_ANSWER : List Char :=
  ("I don").data ++ [Char.ofNat 39] ++
    ("t have specific information about that topic. Please consult with a healthcare professional for medical guidance.").data

/-- The deterministic suffix appended when two or more matches are
synthesized without the generative call. -/
def CONSULT_SUFFIX : List Char :=
  (" For additional guidance, consult with a healthcare professional.").data

/-- `synthesizeAnswer(query, matches)`: zero matches give the fixed
disclaimer; otherwise, when the OpenAI client exists and the service is
not in fallback mode, the generative call is attempted (`genOutcome`:
`some s` = the returned content, `none` = a thrown error, which falls
through); the simple synthesis returns a single match verbatim and
otherwise the top match plus the fixed suffix. -/
def synthesizeAnswer (hasOpenai useFallback : Bool)
    (genOutcome : Option (List Char)) (query : List Char)
    (ms : List SearchMatch) : List Char :=
  match ms with
  | [] => NO_INFO_ANSWER
  | topMatch :: rest =>
    let simple :=
      if rest.length = 0 then topMatch.text else topMatch.text ++ CONSULT_SUFFIX
    if hasOpenai && !useFallback then
      match genOutcome with
      | some s => s
      | none => simple
    else simple

/-- The response of `handleFAQ`. -/
structure FAQResponse where
  answer : List Char
  matches' : List SearchMatch
deriving DecidableEq, Repr

/-- `handleFAQ(query)`: search, then synthesize. -/
def FAQSearchService.handleFAQ (svc : FAQSearchService)
    (vectorOutcome : Option (List SearchMatch)) (genOutcome : Option (List Char))
    (query : List Char) : FAQSearchService × FAQResponse :=
  let r := svc.search vectorOutcome query
  let answer := synthesizeAnswer r.1.hasClients r.1.useFallback genOutcome query r.2.2
  (r.1, FAQResponse.mk answer r.2.2)

/-- The search part of one `GET /api/faq` request: the handler constructs
a fresh `FAQSearchService` for the request and calls it, so no service
state survives from one request to the next. -/
def faqRequestSearch (credsPresent : Bool)
    (vectorOutcome : Option (List SearchMatch)) (query : List Char) :
    SearchPath × List SearchMatch :=
  let svc := FAQSearchService.construct credsPresent
  let r := svc.search vectorOutcome query
  (r.2.1, r.2.2)

/-! ### RateLimiter (lib/rateLimit.ts) -/

/-- One entry of the limiter map. -/
structure RateLimitEntry where
  count : ℕ
  resetTime : ℤ
deriving DecidableEq, Repr

/-- The limiter configuration fixed at construction. -/
structure RateLimiter where
  windowMs : ℤ
  maxRequests : ℕ
deriving DecidableEq, Repr

/-- The `requests` map, total over keys. -/
def LimiterState := String → Option RateLimitEntry

/-- `isAllowed(identifier)`: create or replace the entry with count 1 when
there is none or the stored one has expired; deny without mutating when
the count has reached the cap; otherwise increment.  `now` stands for
`Date.now()`. -/
def RateLimiter.isAllowed (rl : RateLimiter) (requests : LimiterState)
    (now : ℤ) (identifier : String) : Bool × LimiterState :=
  match requests identifier with
  | none =>
      (true, fun k =>
        if k = identifier then some ⟨1, now + rl.windowMs⟩ else requests k)
  | some entry =>
      if now > entry.resetTime then
        (true, fun k =>
          if k = identifier then some ⟨1, now + rl.windowMs⟩ else requests k)
      else if rl.maxRequests ≤ entry.count then
        (false, requests)
      else
        (true, fun k =>
          if k = identifier then some ⟨entry.count + 1, entry.resetTime⟩
          else requests k)

/-- `getRemaining(identifier)`; natural subtraction is the
`Math.max(0, ...)` of the source. -/
def RateLimiter.getRemaining (rl : RateLimiter) (requests : LimiterState)
    (now : ℤ) (identifier : String) : ℕ :=
  match requests identifier with
  | none => rl.maxRequests
  | some entry =>
      if now > entry.resetTime then rl.maxRequests
      else rl.maxRequests - entry.count

/-- `isAllowed` iterated over a list of call instants for one key,
returning the answers in order together with the final map. -/
def RateLimiter.runCalls (rl : RateLimiter) (identifier : String) :
    LimiterState → List ℤ → List Bool × LimiterState
  | st, [] => ([], st)
  | st, t :: ts =>
    let r := rl.isAllowed st t identifier
    let rec' := RateLimiter.runCalls rl identifier r.2 ts
    (r.1 :: rec'.1, rec'.2)

/-! ### QueryHistoryStore (lib/queryHistory.ts) -/

/-- One history item; `id` is `Date.now().toString()` and `timestamp` the
same clock reading. -/
structure QueryHistoryItem where
  id : List Char
  medA : List Char
  medB : List Char
  isPotentiallyRisky : Bool
  reason : List Char
  timestamp : ℤ
deriving DecidableEq, Repr

/-- The capacity `maxItems` of the store. -/
def historyMaxItems : ℕ := 10

/-- `addQuery`: unshift the new item, then cut back to `maxItems` when the
length exceeds it. -/
def QueryHistoryStore.addQuery (medA medB : List Char)
    (isPotentiallyRisky : Bool) (reason : List Char) (now : ℤ)
    (history : List QueryHistoryItem) : List QueryHistoryItem :=
  let item : QueryHistoryItem :=
    ⟨(toString now).data, medA, medB, isPotentiallyRisky, reason, now⟩
  let h := item :: history
  if historyMaxItems < h.length then h.take historyMaxItems else h

/-- `getRecentQueries` returns a copy of the list. -/
def QueryHistoryStore.getRecentQueries (history : List QueryHistoryItem) :
    List QueryHistoryItem := history

/-- `clearHistory` empties the store. -/
def QueryHistoryStore.clearHistory (_ : List QueryHistoryItem) :
    List QueryHistoryItem := []

/-- The item `addQuery` builds for given arguments and clock reading. -/
def mkHistoryItem (medA medB : List Char) (isPotentiallyRisky : Bool)
    (reason : List Char) (now : ℤ) : QueryHistoryItem :=
  ⟨(toString now).data, medA, medB, isPotentiallyRisky, reason, now⟩

/-- The argument tuple of one `addQuery` call: medications, risk flag,
reason and the clock reading at the call. -/
structure AddCall where
  medA : List Char
  medB : List Char
  isPotentiallyRisky : Bool
  reason : List Char
  now : ℤ
deriving DecidableEq, Repr

/-- A sequence of `addQuery` calls applied in order. -/
def runAdds (history : List QueryHistoryItem) (calls : List AddCall) :
    List QueryHistoryItem :=
  calls.foldl
    (fun h c => QueryHistoryStore.addQuery c.medA c.medB c.isPotentiallyRisky c.reason c.now h)
    history

/-! ### Interactions library (lib/interactions.ts) and POST handler -/

/-- One entry of `INTERACTION_RULES`. -/
structure InteractionRule where
  drug1 : List Char
  drug2 : List Char
  risky : Bool
  reason : List Char
  advice : List Char
deriving DecidableEq, Repr

/-- The three-rule table of `lib/interactions.ts`. -/
def INTERACTION_RULES : List InteractionRule :=
  [⟨("warfarin").data, ("ibuprofen").data, true,
    ("increased bleeding risk").data,
    ("avoid combo; consult clinician; prefer acetaminophen for pain relief").data⟩,
   ⟨("metformin").data, ("contrast dye").data, true,
    ("lactic acidosis risk around imaging contrast").data,
    ("hold metformin per imaging protocol").data⟩,
   ⟨("lisinopril").data, ("spironolactone").data, true,
    ("hyperkalemia risk").data,
    ("monitor potassium, consult clinician").data⟩]

/-- `findInteraction`: normalize both names, then look the pair up in the
rule table in either orientation. -/
def findInteraction (medA medB : List Char) : Option InteractionRule :=
  let normalizedA := jsTrim (lower medA)
  let normalizedB := jsTrim (lower medB)
  INTERACTION_RULES.find? fun rule =>
    let drug1 := lower rule.drug1
    let drug2 := lower rule.drug2
    (decide (drug1 = normalizedA) && decide (drug2 = normalizedB)) ||
    (decide (drug1 = normalizedB) && decide (drug2 = normalizedA))

/-- The result of `checkInteraction`. -/
structure InteractionResult where
  pair : List Char × List Char
  isPotentiallyRisky : Bool
  reason : List Char
  advice : List Char
deriving DecidableEq, Repr

/-- `checkInteraction`: the matched rule, or the no-known-interaction
default. -/
def checkInteraction (medA medB : List Char) : InteractionResult :=
  match findInteraction medA medB with
  | some interaction =>
      ⟨(medA, medB), interaction.risky, interaction.reason, interaction.advice⟩
  | none =>
      ⟨(medA, medB), false, ("No known interaction found").data,
        ("No specific interaction warnings found in our database. However, always consult with a healthcare professional before combining medications.").data⟩

/-- The character class of the medication-name regexp:
letters, digits, whitespace, hyphen and dot. -/
def isMedNameChar (c : Char) : Bool :=
  (97 ≤ c.toNat && c.toNat ≤ 122) || (65 ≤ c.toNat && c.toNat ≤ 90) ||
  (48 ≤ c.toNat && c.toNat ≤ 57) || jsIsWs c || c == '-' || c == '.'

/-- The zod chain on one medication field: `min(1)` and `max(100)` on the
raw value, then `trim()`, then the regexp (anchored, one or more class
characters) on the trimmed value, which is also the parsed output. -/
def validateMedName (s : List Char) : Option (List Char) :=
  if s.length < 1 then none
  else if 100 < s.length then none
  else
    let t := jsTrim s
    if !t.isEmpty && t.all isMedNameChar then some t else none

/-- `POST /api/interactions` as a function of the limiter map and the
history list: rate limiting first (denial returns 429 before anything
else), then body parsing (`none` = `request.json()` threw, caught by the
outer handler as a 500), zod validation (400 on failure), the duplicate
check (400), and finally `checkInteraction` plus `addQuery` (200).
Returns the HTTP status with the updated limiter map and history. -/
def handleInteractionsPOST (rl : RateLimiter) (now : ℤ) (clientIp : String)
    (body : Option (List Char × List Char)) (requests : LimiterState)
    (history : List QueryHistoryItem) :
    ℕ × LimiterState × List QueryHistoryItem :=
  let r := rl.isAllowed requests now clientIp
  if !r.1 then (429, r.2, history)
  else
    match body with
    | none => (500, r.2, history)
    | some (medA, medB) =>
      match validateMedName medA, validateMedName medB with
      | some a, some b =>
          if jsTrim (lower a) = jsTrim (lower b) then (400, r.2, history)
          else
            let result := checkInteraction a b
            (200, r.2,
              QueryHistoryStore.addQuery a b result.isPotentiallyRisky result.reason now history)
      | _, _ => (400, r.2, history)

/-! ### Spec-side score and ordinal bookkeeping -/

/-- Modelled from the spec: the query terms (whitespace-delimited tokens
of the lowercased query) that stand in a bidirectional substring relation
with some whitespace-delimited token of the lowercased chunk. -/
def specMatchedTerms (query text : List Char) : List (List Char) :=
  (specTokenize (lower query)).filter fun term =>
    (specTokenize (lower text)).any fun tt => includesB tt term || includesB term tt

/-- Modelled from the spec: the score `matchedTermCount / totalQueryTermCount`
over whitespace-delimited tokens. -/
def specChunkScore (query text : List Char) : ℚ :=
  ((specMatchedTerms query text).length : ℚ) / ((specTokenize (lower query)).length : ℚ)

/-- The corpus ordinal of a match: the position of its text in
`FALLBACK_CORPUS` (the five texts are pairwise distinct). -/
def corpusOrdinal (m : SearchMatch) : ℕ := FALLBACK_CORPUS.indexOf m.text

/-- The first character, if any, is not whitespace. -/
def noLeadingWs (s : List Char) : Bool :=
  match s with
  | [] => true
  | c :: _ => !jsIsWs c

/-- The last character, if any, is not whitespace. -/
def noTrailingWs (s : List Char) : Bool :=
  match s.getLast? with
  | none => true
  | some c => !jsIsWs c

end Mediphant

namespace Mediphant

/-! ### Rate limiter lemmas -/

/-- A call with no live entry (none, or an expired one) creates a fresh
entry with count 1 and allows. -/
theorem isAllowed_reset (rl : RateLimiter) (st : LimiterState) (now : ℤ) (k : String)
    (h : st k = none ∨ ∃ e, st k = some e ∧ e.resetTime < now) :
    rl.isAllowed st now k =
      (true, fun j => if j = k then some ⟨1, now + rl.windowMs⟩ else st j) := by
  rcases h with h | ⟨e, he, hlt⟩
  · simp [RateLimiter.isAllowed, h]
  · simp [RateLimiter.isAllowed, he, hlt]

/-- A call on a live entry below the cap increments it and allows. -/
theorem isAllowed_increment (rl : RateLimiter) (st : LimiterState) (now : ℤ) (k : String)
    (e : RateLimitEntry) (he : st k = some e) (hnow : now ≤ e.resetTime)
    (hcap : e.count < rl.maxRequests) :
    rl.isAllowed st now k =
      (true, fun j => if j = k then some ⟨e.count + 1, e.resetTime⟩ else st j) := by
  simp [RateLimiter.isAllowed, he, not_lt.mpr hnow, not_le.mpr hcap]

/-- A call on a live entry at the cap denies and does not change the map. -/
theorem isAllowed_deny (rl : RateLimiter) (st : LimiterState) (now : ℤ) (k : String)
    (e : RateLimitEntry) (he : st k = some e) (hnow : now ≤ e.resetTime)
    (hcap : rl.maxRequests ≤ e.count) :
    rl.isAllowed st now k = (false, st) := by
  simp [RateLimiter.isAllowed, he, not_lt.mpr hnow, hcap]

/-- Whenever `isAllowed` answers false, the map is returned unchanged. -/
theorem isAllowed_denied_state (rl : RateLimiter) (st : LimiterState) (now : ℤ)
    (k : String) (h : (rl.isAllowed st now k).1 = false) :
    (rl.isAllowed st now k).2 = st := by
  cases hsk : st k with
  | none =>
      rw [isAllowed_reset rl st now k (Or.inl hsk)] at h
      simp at h
  | some e =>
      by_cases hexp : e.resetTime < now
      · rw [isAllowed_reset rl st now k (Or.inr ⟨e, hsk, hexp⟩)] at h
        simp at h
      · by_cases hcap : rl.maxRequests ≤ e.count
        · rw [isAllowed_deny rl st now k e hsk (not_lt.mp hexp) hcap]
        · rw [isAllowed_increment rl st now k e hsk (not_lt.mp hexp) (not_le.mp hcap)] at h
          simp at h

/-- A call for one key never changes the entry of another key. -/
theorem isAllowed_frame (rl : RateLimiter) (st : LimiterState) (now : ℤ)
    (k k2 : String) (h : k2 ≠ k) :
    (rl.isAllowed st now k).2 k2 = st k2 := by
  cases hsk : st k with
  | none => simp [RateLimiter.isAllowed, hsk, h]
  | some e =>
      simp only [RateLimiter.isAllowed, hsk]
      split_ifs <;> simp [h]

/-- The answer of `isAllowed` for a key, and the entry it leaves for that
key, depend on the map only through that key's entry. -/
theorem isAllowed_local (rl : RateLimiter) (st1 st2 : LimiterState) (now : ℤ)
    (k : String) (h : st1 k = st2 k) :
    (rl.isAllowed st1 now k).1 = (rl.isAllowed st2 now k).1 ∧
    (rl.isAllowed st1 now k).2 k = (rl.isAllowed st2 now k).2 k := by
  unfold RateLimiter.isAllowed
  rw [h]
  cases st2 k with
  | none => simp
  | some e =>
      dsimp only
      split_ifs <;> simp [h]

/-- `getRemaining` depends on the map only through the queried key. -/
theorem getRemaining_local (rl : RateLimiter) (st1 st2 : LimiterState) (now : ℤ)
    (k : String) (h : st1 k = st2 k) :
    rl.getRemaining st1 now k = rl.getRemaining st2 now k := by
  unfold RateLimiter.getRemaining
  rw [h]

/-- Saturating a live window: starting from a live entry with count `j`,
calls at instants within the window answer true until the cap is reached
and false on the final call, leaving the entry at the cap. -/
theorem runCalls_saturate (rl : RateLimiter) (k : String) (R : ℤ) :
    ∀ (ts : List ℤ) (st : LimiterState) (j : ℕ),
      st k = some ⟨j, R⟩ → (∀ t ∈ ts, t ≤ R) → j ≤ rl.maxRequests →
      j + ts.length = rl.maxRequests + 1 →
      (rl.runCalls k st ts).1 = List.replicate (rl.maxRequests - j) true ++ [false] ∧
      (rl.runCalls k st ts).2 k = some ⟨rl.maxRequests, R⟩
  | [], st, j, hst, hts, hle, hlen => by
      exfalso
      simp at hlen
      omega
  | t :: ts, st, j, hst, hts, hle, hlen => by
      by_cases hj : j = rl.maxRequests
      · have hts0 : ts = [] := by
          have hl : ts.length = 0 := by simp at hlen; omega
          exact List.length_eq_zero.mp hl
        subst hts0
        have hdeny := isAllowed_deny rl st t k ⟨j, R⟩ hst (hts t (by simp)) (le_of_eq hj.symm)
        subst hj
        simp [RateLimiter.runCalls, hdeny, hst]
      · have hjlt : j < rl.maxRequests := lt_of_le_of_ne hle hj
        have hinc := isAllowed_increment rl st t k ⟨j, R⟩ hst (hts t (by simp)) hjlt
        have ih := runCalls_saturate rl k R ts
            (fun j2 => if j2 = k then some ⟨j + 1, R⟩ else st j2) (j + 1)
            (by simp) (fun u hu => hts u (by simp [hu])) (by omega) (by simp at hlen ⊢; omega)
        have hrep : rl.maxRequests - j = (rl.maxRequests - (j + 1)) + 1 := by omega
        simp only [RateLimiter.runCalls, hinc]
        refine ⟨?_, ih.2⟩
        rw [ih.1, hrep, List.replicate_succ]
        simp

/-- C4: with window `W` and cap `C > 0`, starting from a key with no live
entry, the first `C` calls inside the window are allowed, the `(C+1)`th is
denied, and a later call after the window has fully elapsed is allowed
again and replaces the entry with count 1. -/
theorem C4_fixed_window (rl : RateLimiter) (st : LimiterState) (k : String)
    (t1 tExp : ℤ) (ts : List ℤ)
    (hC : 0 < rl.maxRequests)
    (hfresh : st k = none ∨ ∃ e, st k = some e ∧ e.resetTime < t1)
    (hlen : ts.length = rl.maxRequests)
    (hts : ∀ t ∈ ts, t1 ≤ t ∧ t ≤ t1 + rl.windowMs)
    (hexp : t1 + rl.windowMs < tExp) :
    (rl.runCalls k st (t1 :: ts)).1 = List.replicate rl.maxRequests true ++ [false] ∧
    (rl.isAllowed ((rl.runCalls k st (t1 :: ts)).2) tExp k).1 = true ∧
    (rl.isAllowed ((rl.runCalls k st (t1 :: ts)).2) tExp k).2 k =
      some ⟨1, tExp + rl.windowMs⟩ := by
  have hfirst := isAllowed_reset rl st t1 k hfresh
  have hsat := runCalls_saturate rl k (t1 + rl.windowMs) ts
      (fun j => if j = k then some ⟨1, t1 + rl.windowMs⟩ else st j) 1
      (by simp) (fun u hu => (hts u hu).2) hC (by omega)
  have hrep : rl.maxRequests = (rl.maxRequests - 1) + 1 := by omega
  have hreset := isAllowed_reset rl ((rl.runCalls k
      (fun j => if j = k then some ⟨1, t1 + rl.windowMs⟩ else st j) ts)).2 tExp k
      (Or.inr ⟨⟨rl.maxRequests, t1 + rl.windowMs⟩, hsat.2, hexp⟩)
  refine ⟨?_, ?_, ?_⟩
  · simp only [RateLimiter.runCalls, hfirst]
    rw [hsat.1, hrep, List.replicate_succ]
    simp
  · simp only [RateLimiter.runCalls, hfirst, hreset]
  · simp only [RateLimiter.runCalls, hfirst, hreset]
    simp

/-- Witness for C4 at window 60000, cap 3, a fresh key and call instants
0, 10, 20, 30 followed by one at 60001. -/
theorem C4_fixed_window_witness :
    ((RateLimiter.mk 60000 3).runCalls ("a") (fun _ => none) ([0, 10, 20, 30])).1 =
      List.replicate 3 true ++ [false] ∧
    ((RateLimiter.mk 60000 3).isAllowed
      (((RateLimiter.mk 60000 3).runCalls ("a") (fun _ => none) ([0, 10, 20, 30])).2)
      60001 ("a")).1 = true ∧
    ((RateLimiter.mk 60000 3).isAllowed
      (((RateLimiter.mk 60000 3).runCalls ("a") (fun _ => none) ([0, 10, 20, 30])).2)
      60001 ("a")).2 ("a") = some ⟨1, 60001 + 60000⟩ :=
  C4_fixed_window (RateLimiter.mk 60000 3) (fun _ => none) ("a") 0 60001
    ([10, 20, 30]) (by decide) (Or.inl rfl) (by decide)
    (by intro t ht; fin_cases ht <;> constructor <;> decide) (by decide)

/-- C10: traffic on one key never touches another key's entry, so both
`getRemaining` and a subsequent `isAllowed` for the other key are
unaffected. -/
theorem C10_key_isolation (rl : RateLimiter) (st : LimiterState)
    (now now2 now3 : ℤ) (k k2 : String) (h : k ≠ k2) :
    (rl.isAllowed st now k).2 k2 = st k2 ∧
    rl.getRemaining ((rl.isAllowed st now k).2) now2 k2 =
      rl.getRemaining st now2 k2 ∧
    (rl.isAllowed ((rl.isAllowed st now k).2) now3 k2).1 =
      (rl.isAllowed st now3 k2).1 ∧
    (rl.isAllowed ((rl.isAllowed st now k).2) now3 k2).2 k2 =
      (rl.isAllowed st now3 k2).2 k2 := by
  have hf := isAllowed_frame rl st now k k2 (Ne.symm h)
  exact ⟨hf, getRemaining_local rl _ st now2 k2 hf,
    (isAllowed_local rl _ st now3 k2 hf).1, (isAllowed_local rl _ st now3 k2 hf).2⟩

/-- Witness for C10 with keys a and b on the empty map. -/
theorem C10_key_isolation_witness :
    ((RateLimiter.mk 60000 100).isAllowed (fun _ => none) 0 ("a")).2 ("b") =
      (fun _ => none : LimiterState) ("b") ∧
    (RateLimiter.mk 60000 100).getRemaining
      (((RateLimiter.mk 60000 100).isAllowed (fun _ => none) 0 ("a")).2) 1 ("b") =
      (RateLimiter.mk 60000 100).getRemaining (fun _ => none) 1 ("b") ∧
    ((RateLimiter.mk 60000 100).isAllowed
      (((RateLimiter.mk 60000 100).isAllowed (fun _ => none) 0 ("a")).2) 2 ("b")).1 =
      ((RateLimiter.mk 60000 100).isAllowed (fun _ => none) 2 ("b")).1 ∧
    ((RateLimiter.mk 60000 100).isAllowed
      (((RateLimiter.mk 60000 100).isAllowed (fun _ => none) 0 ("a")).2) 2 ("b")).2 ("b") =
      ((RateLimiter.mk 60000 100).isAllowed (fun _ => none) 2 ("b")).2 ("b") :=
  C10_key_isolation (RateLimiter.mk 60000 100) (fun _ => none) 0 1 2 ("a") ("b")
    (by decide)

/-- C9: a rate-limited interactions request returns 429 and leaves both
the limiter map and the history list exactly as they were. -/
theorem C9_denied_request_frame (rl : RateLimiter) (now : ℤ) (clientIp : String)
    (body : Option (List Char × List Char)) (requests : LimiterState)
    (history : List QueryHistoryItem)
    (hdeny : (rl.isAllowed requests now clientIp).1 = false) :
    handleInteractionsPOST rl now clientIp body requests history =
      (429, requests, history) := by
  have hstate := isAllowed_denied_state rl requests now clientIp hdeny
  simp [handleInteractionsPOST, hdeny, hstate]

/-- Witness for C9: a key already at the cap inside a live window. -/
theorem C9_denied_request_frame_witness :
    handleInteractionsPOST (RateLimiter.mk 60000 2) 50 ("ip")
      (some (("warfarin").data, ("ibuprofen").data))
      (fun j => if j = ("ip" : String) then some ⟨2, 100⟩ else none) [] =
      (429, (fun j => if j = ("ip" : String) then some ⟨2, 100⟩ else none), []) :=
  C9_denied_request_frame (RateLimiter.mk 60000 2) 50 ("ip")
    (some (("warfarin").data, ("ibuprofen").data))
    (fun j => if j = ("ip" : String) then some ⟨2, 100⟩ else none) [] (by decide)

/-! ### History log lemmas -/

/-- `addQuery` grows the list by one up to the cap. -/
theorem addQuery_length (medA medB : List Char) (r : Bool) (reason : List Char)
    (now : ℤ) (h : List QueryHistoryItem) :
    (QueryHistoryStore.addQuery medA medB r reason now h).length =
      min (h.length + 1) historyMaxItems := by
  simp only [QueryHistoryStore.addQuery]
  split_ifs with hif <;>
    simp only [List.length_take, List.length_cons] at hif ⊢ <;> omega

/-- The freshly added item is always at the front. -/
theorem addQuery_head (medA medB : List Char) (r : Bool) (reason : List Char)
    (now : ℤ) (h : List QueryHistoryItem) :
    (QueryHistoryStore.addQuery medA medB r reason now h).head? =
      some (mkHistoryItem medA medB r reason now) := by
  simp only [QueryHistoryStore.addQuery, mkHistoryItem]
  split_ifs with hif
  · rfl
  · rfl

/-- Length after a nonempty run of adds. -/
theorem runAdds_length (calls : List AddCall) :
    ∀ h : List QueryHistoryItem, calls ≠ [] →
      (runAdds h calls).length = min (h.length + calls.length) historyMaxItems := by
  induction calls with
  | nil => exact fun h hne => absurd rfl hne
  | cons c cs ih =>
      intro h _
      by_cases hcs : cs = []
      · subst hcs
        simp only [runAdds, List.foldl_cons, List.foldl_nil]
        rw [addQuery_length]
        simp
      · have hstep : runAdds h (c :: cs) =
            runAdds (QueryHistoryStore.addQuery c.medA c.medB c.isPotentiallyRisky
              c.reason c.now h) cs := by
          simp [runAdds]
        rw [hstep, ih _ hcs, addQuery_length]
        simp only [List.length_cons]
        omega

/-- The head after a run ending in a given call is that call's item. -/
theorem runAdds_concat_head (calls : List AddCall) (c : AddCall)
    (h : List QueryHistoryItem) :
    (runAdds h (calls ++ [c])).head? =
      some (mkHistoryItem c.medA c.medB c.isPotentiallyRisky c.reason c.now) := by
  unfold runAdds
  rw [List.foldl_append]
  simp only [List.foldl_cons, List.foldl_nil]
  exact addQuery_head _ _ _ _ _ _

/-- C6: from any starting state, 15 sequential adds leave exactly 10 items
with the 15th item first; clearing then yields the empty list, and
clearing an empty log is valid and yields the empty list. -/
theorem C6_bounded_history (history : List QueryHistoryItem) (calls : List AddCall)
    (c : AddCall) (hlen : calls.length = 15) (hlast : calls.getLast? = some c) :
    (QueryHistoryStore.getRecentQueries (runAdds history calls)).length = 10 ∧
    (QueryHistoryStore.getRecentQueries (runAdds history calls)).head? =
      some (mkHistoryItem c.medA c.medB c.isPotentiallyRisky c.reason c.now) ∧
    QueryHistoryStore.getRecentQueries
      (QueryHistoryStore.clearHistory (runAdds history calls)) = [] ∧
    QueryHistoryStore.clearHistory ([] : List QueryHistoryItem) = [] := by
  obtain ⟨as, rfl⟩ := List.getLast?_eq_some_iff.mp hlast
  have hne : as ++ [c] ≠ [] := by simp
  refine ⟨?_, ?_, rfl, rfl⟩
  · show (runAdds history (as ++ [c])).length = 10
    rw [runAdds_length (as ++ [c]) history hne, hlen]
    have : historyMaxItems = 10 := rfl
    omega
  · exact runAdds_concat_head as c history

/-- Witness for C6: 15 identical adds on the empty log. -/
theorem C6_bounded_history_witness :
    (QueryHistoryStore.getRecentQueries
      (runAdds [] (List.replicate 15 (AddCall.mk (("a").data) (("b").data) false
        (("r").data) 0)))).length = 10 ∧
    (QueryHistoryStore.getRecentQueries
      (runAdds [] (List.replicate 15 (AddCall.mk (("a").data) (("b").data) false
        (("r").data) 0)))).head? =
      some (mkHistoryItem (("a").data) (("b").data) false (("r").data) 0) ∧
    QueryHistoryStore.getRecentQueries
      (QueryHistoryStore.clearHistory
        (runAdds [] (List.replicate 15 (AddCall.mk (("a").data) (("b").data) false
          (("r").data) 0)))) = [] ∧
    QueryHistoryStore.clearHistory ([] : List QueryHistoryItem) = [] :=
  C6_bounded_history [] _ (AddCall.mk (("a").data) (("b").data) false (("r").data) 0)
    (by decide) (by decide)

/-! ### Orchestrator downgrade (C1) -/

/-- Once an instance is in fallback mode, every further `search` on that
same instance takes the fallback branch and leaves the state unchanged. -/
theorem searchRun_fallback_mode (svc : FAQSearchService) (hsvc : svc.useFallback = true) :
    ∀ calls : List (Option (List SearchMatch) × List Char),
      (svc.searchRun calls).1 = List.replicate calls.length SearchPath.fallback ∧
      (svc.searchRun calls).2 = svc
  | [] => by simp [FAQSearchService.searchRun]
  | (o, q) :: rest => by
      have hsearch : svc.search o q = (svc, SearchPath.fallback, searchWithFallback q) := by
        simp [FAQSearchService.search, hsvc]
      have ih := searchRun_fallback_mode svc hsvc rest
      simp [FAQSearchService.searchRun, hsearch, ih.1, ih.2, List.replicate_succ]

/-- C1 counterexample: the GET handler constructs a fresh
`FAQSearchService` per request, so a vector-path failure on one request
does not put the next request on the fallback path — with credentials
present and a healthy dependency, the next request takes the vector
branch again. -/
theorem C1_counterexample :
    (faqRequestSearch true none (("first query").data)).1 = SearchPath.fallback ∧
    (faqRequestSearch true (some [SearchMatch.mk (("hit").data) 1])
      (("second query").data)).1 = SearchPath.vector ∧
    SearchPath.vector ≠ SearchPath.fallback :=
  ⟨rfl, rfl, by decide⟩

/-- C1 amended: the downgrade is one-way for the lifetime of a single
`FAQSearchService` instance — after a request whose embedding/vector step
fails, every later `search` on that same instance takes the fallback
branch, whatever its oracle says, and the instance stays downgraded.  (It
is not process-wide: the GET handler builds a fresh instance per request,
as `C1_counterexample` shows.) -/
theorem C1_sticky_per_instance (q1 : List Char)
    (calls : List (Option (List SearchMatch) × List Char)) :
    (∀ p ∈ ((FAQSearchService.construct true).searchRun ((none, q1) :: calls)).1,
      p = SearchPath.fallback) ∧
    ((FAQSearchService.construct true).searchRun ((none, q1) :: calls)).2.useFallback
      = true := by
  have hsearch : (FAQSearchService.construct true).search none q1 =
      (FAQSearchService.mk true true, SearchPath.fallback, searchWithFallback q1) := by
    simp [FAQSearchService.construct, FAQSearchService.search]
  have hrest := searchRun_fallback_mode (FAQSearchService.mk true true) rfl calls
  constructor
  · intro p hp
    simp only [FAQSearchService.searchRun, hsearch, hrest.1] at hp
    rcases List.mem_cons.mp hp with h | h
    · exact h
    · exact List.eq_of_mem_replicate h
  · simp [FAQSearchService.searchRun, hsearch, hrest.2]

/-- Witness for the amended C1: a failing first call, then a healthy
oracle on the same instance, still on the fallback branch. -/
theorem C1_sticky_per_instance_witness :
    SearchPath.fallback ∈ ((FAQSearchService.construct true).searchRun
      [((none : Option (List SearchMatch)), ("first").data),
       (some [SearchMatch.mk (("hit").data) 1], ("second").data)]).1 ∧
    SearchPath.fallback = SearchPath.fallback ∧
    ((FAQSearchService.construct true).searchRun
      [((none : Option (List SearchMatch)), ("first").data),
       (some [SearchMatch.mk (("hit").data) 1], ("second").data)]).2.useFallback = true := by
  have h := C1_sticky_per_instance (("first").data)
    [(some [SearchMatch.mk (("hit").data) 1], ("second").data)]
  exact ⟨by decide, h.1 SearchPath.fallback (by decide), h.2⟩

/-! ### Answer synthesis (C5) -/

/-- C5 counterexample: with the OpenAI client present, the service not in
fallback mode and a successful generative call, a single-match sequence is
answered with the generative output, not the match text verbatim. -/
theorem C5_counterexample :
    synthesizeAnswer true false (some (("generated text").data)) (("q").data)
      [SearchMatch.mk (("the single match").data) 1] = ("generated text").data ∧
    ("generated text").data ≠ ("the single match").data :=
  ⟨rfl, by decide⟩

/-- C5 amended: whenever the deterministic branch is reached — fallback
mode, no generative client, or a failed generative call — a single-match
sequence is answered with that match's text verbatim, with no suffix. -/
theorem C5_single_match_verbatim (hasOpenai useFallback : Bool)
    (genOutcome : Option (List Char)) (query : List Char) (m : SearchMatch)
    (h : useFallback = true ∨ hasOpenai = false ∨ genOutcome = none) :
    synthesizeAnswer hasOpenai useFallback genOutcome query [m] = m.text := by
  rcases h with h | h | h
  · subst h
    cases hasOpenai <;> cases genOutcome <;> simp [synthesizeAnswer]
  · subst h
    cases useFallback <;> cases genOutcome <;> simp [synthesizeAnswer]
  · subst h
    cases hasOpenai <;> cases useFallback <;> simp [synthesizeAnswer]

/-- Witness for the amended C5: fallback mode, one match. -/
theorem C5_single_match_verbatim_witness :
    synthesizeAnswer false true none (("q").data)
      [SearchMatch.mk (("only match").data) 1] = ("only match").data :=
  C5_single_match_verbatim false true none (("q").data)
    (SearchMatch.mk (("only match").data) 1) (Or.inl rfl)

/-! ### Tokenization lemmas (C2, C7) -/

/-- Code point of the lowercased form of an ASCII capital letter. -/
theorem toNat_ofNat_add32 (n : ℕ) (h1 : 65 ≤ n) (h2 : n ≤ 90) :
    (Char.ofNat (n + 32)).toNat = n + 32 := by
  have hvalid : Nat.isValidChar (n + 32) := Or.inl (by omega)
  simp [Char.ofNat, hvalid, Char.toNat, Char.ofNatAux, UInt32.toNat,
    BitVec.toNat_ofNatLt]

/-- Lowercasing never changes whether a character is whitespace. -/
theorem jsIsWs_jsToLower (c : Char) : jsIsWs (jsToLower c) = jsIsWs c := by
  unfold jsToLower
  split_ifs with h
  · have hv : (Char.ofNat (c.toNat + 32)).toNat = c.toNat + 32 :=
      toNat_ofNat_add32 c.toNat h.1 h.2
    have hlhs : jsIsWs (Char.ofNat (c.toNat + 32)) = false := by
      simp only [jsIsWs, decide_eq_false_iff_not]
      rw [hv]
      omega
    have hrhs : jsIsWs c = false := by
      simp only [jsIsWs, decide_eq_false_iff_not]
      omega
    rw [hlhs, hrhs]
  · rfl

/-- The last character of a nonempty tail also closes the longer list. -/
theorem noTrailingWs_cons (c : Char) (cs : List Char)
    (h : noTrailingWs (c :: cs) = true) (hcs : cs ≠ []) :
    noTrailingWs cs = true := by
  rcases cs with _ | ⟨d, ds⟩
  · exact absurd rfl hcs
  · simpa only [noTrailingWs, List.getLast?_cons_cons] using h

/-- On input without trailing whitespace, the JS splitter and the spec
tokenizer agree, from a state either inside a token (nonempty
accumulator) or inside a gap with input remaining. -/
theorem jsSplitWsAux_eq_specTokAux :
    ∀ (cs : List Char), noTrailingWs cs = true →
    ∀ (acc : List Char) (inGap : Bool),
      (inGap = true → acc = [] ∧ cs ≠ []) →
      (inGap = false → acc ≠ []) →
      jsSplitWsAux inGap acc cs = specTokAux acc cs := by
  intro cs
  induction cs with
  | nil =>
      intro _ acc inGap hgap htok
      cases inGap with
      | true => exact absurd rfl (hgap rfl).2
      | false =>
          have hacc := htok rfl
          simp [jsSplitWsAux, specTokAux, hacc]
  | cons c cs ih =>
      intro htrail acc inGap hgap htok
      by_cases hws : jsIsWs c = true
      · have hcs : cs ≠ [] := by
          intro hnil
          subst hnil
          have : noTrailingWs [c] = !jsIsWs c := rfl
          rw [this, hws] at htrail
          exact absurd htrail (by simp)
        have htrail' : noTrailingWs cs = true := noTrailingWs_cons c cs htrail hcs
        cases inGap with
        | true =>
            have hacc := (hgap rfl).1
            subst hacc
            simp only [jsSplitWsAux, specTokAux, hws, if_true, if_pos rfl]
            exact ih htrail' [] true (fun _ => ⟨rfl, hcs⟩) (by intro hcon; cases hcon)
        | false =>
            have hacc := htok rfl
            simp only [jsSplitWsAux, specTokAux, hws, if_true, if_neg hacc]
            rw [ih htrail' [] true (fun _ => ⟨rfl, hcs⟩) (by intro hcon; cases hcon)]
            simp
      · have htrail' : noTrailingWs cs = true := by
          by_cases hcs : cs = []
          · subst hcs; rfl
          · exact noTrailingWs_cons c cs htrail hcs
        have hws' : jsIsWs c = false := by
          cases hjw : jsIsWs c
          · rfl
          · exact absurd hjw hws
        simp only [jsSplitWsAux, specTokAux, hws', Bool.false_eq_true, if_false]
        exact ih htrail' (c :: acc) false (by intro hcon; cases hcon) (fun _ => by simp)

/-- On a nonempty string with no leading and no trailing whitespace, the
JS split on whitespace runs yields exactly the whitespace tokens. -/
theorem jsSplitWs_eq_specTokenize (s : List Char) (hs : s ≠ [])
    (hlead : noLeadingWs s = true) (htrail : noTrailingWs s = true) :
    jsSplitWs s = specTokenize s := by
  rcases s with _ | ⟨c, cs⟩
  · exact absurd rfl hs
  · have hws : jsIsWs c = false := by
      have : noLeadingWs (c :: cs) = !jsIsWs c := rfl
      rw [this] at hlead
      simpa using hlead
    have htrail' : noTrailingWs cs = true := by
      by_cases hcs : cs = []
      · subst hcs; rfl
      · exact noTrailingWs_cons c cs htrail hcs
    simp only [jsSplitWs, specTokenize, jsSplitWsAux, specTokAux, hws,
      Bool.false_eq_true, if_false]
    exact jsSplitWsAux_eq_specTokAux cs htrail' [c] false
      (by intro hcon; cases hcon) (fun _ => by simp)

/-- For a trimmed nonempty query, the code's query terms are exactly the
whitespace tokens of the lowercased query. -/
theorem queryTermsOf_eq_specTokenize (q : List Char) (hq : q ≠ [])
    (hlead : noLeadingWs q = true) (htrail : noTrailingWs q = true) :
    queryTermsOf q = specTokenize (lower q) := by
  apply jsSplitWs_eq_specTokenize
  · simp [lower, hq]
  · rcases q with _ | ⟨c, cs⟩
    · exact absurd rfl hq
    · have h1 : noLeadingWs (lower (c :: cs)) = !jsIsWs (jsToLower c) := rfl
      have h2 : noLeadingWs (c :: cs) = !jsIsWs c := rfl
      rw [h1, jsIsWs_jsToLower]
      rw [h2] at hlead
      exact hlead
  · unfold noTrailingWs at htrail ⊢
    unfold lower
    rw [List.getLast?_map]
    cases hgl : q.getLast? with
    | none => simp
    | some d =>
        rw [hgl] at htrail
        simpa [jsIsWs_jsToLower] using htrail

/-- C2 counterexample: for the query made of a space followed by
`zzxxyy`, the code's score on the first corpus chunk is 1/2 (the split
produces an empty term that matches everything), while the
matched/total ratio over whitespace-delimited tokens is 0. -/
theorem C2_counterexample :
    chunkScore (queryTermsOf ((" zzxxyy").data))
      (("Medication adherence improves outcomes in diabetes; missed doses are a leading cause of poor control.").data) = 1/2 ∧
    specChunkScore ((" zzxxyy").data)
      (("Medication adherence improves outcomes in diabetes; missed doses are a leading cause of poor control.").data) = 0 ∧
    (1/2 : ℚ) ≠ 0 := by
  refine ⟨?_, ?_, by norm_num⟩
  · have hm : (chunkMatchedTerms (queryTermsOf ((" zzxxyy").data))
        (("Medication adherence improves outcomes in diabetes; missed doses are a leading cause of poor control.").data)).length = 1 := by
      decide
    have hq : (queryTermsOf ((" zzxxyy").data)).length = 2 := by decide
    rw [chunkScore, hm, hq]
    norm_num
  · have hm : (specMatchedTerms ((" zzxxyy").data)
        (("Medication adherence improves outcomes in diabetes; missed doses are a leading cause of poor control.").data)).length = 0 := by
      decide
    have hq : (specTokenize (lower ((" zzxxyy").data))).length = 1 := by decide
    rw [specChunkScore, hm, hq]
    norm_num

/-- C2 amended: for every nonempty query with no leading or trailing
whitespace and every corpus chunk, the fallback score is exactly
`matchedTermCount / totalQueryTermCount` over the whitespace-delimited
tokens with the bidirectional substring match rule. -/
theorem C2_score_formula (q c : List Char) (hq : q ≠ [])
    (hlead : noLeadingWs q = true) (htrail : noTrailingWs q = true)
    (hc : c ∈ FALLBACK_CORPUS) :
    chunkScore (queryTermsOf q) c = specChunkScore q c := by
  have hqt : queryTermsOf q = specTokenize (lower q) :=
    queryTermsOf_eq_specTokenize q hq hlead htrail
  have hct : jsSplitWs (lower c) = specTokenize (lower c) := by
    fin_cases hc <;> decide
  simp only [chunkScore, specChunkScore, chunkMatchedTerms, specMatchedTerms]
  rw [hqt, hct]

/-- Witness for the amended C2 on a fully matching query and the first
corpus chunk. -/
theorem C2_score_formula_witness :
    chunkScore (queryTermsOf (("medication adherence diabetes").data))
      (("Medication adherence improves outcomes in diabetes; missed doses are a leading cause of poor control.").data) =
    specChunkScore (("medication adherence diabetes").data)
      (("Medication adherence improves outcomes in diabetes; missed doses are a leading cause of poor control.").data) :=
  C2_score_formula (("medication adherence diabetes").data)
    (("Medication adherence improves outcomes in diabetes; missed doses are a leading cause of poor control.").data)
    (by decide) (by decide) (by decide) (by decide)

/-! ### Concrete fallback searches (C7, C8) -/

/-- A chunk with no matched terms scores zero. -/
theorem chunkScore_of_no_match (qts : List (List Char)) (text : List Char)
    (h : (chunkMatchedTerms qts text).length = 0) : chunkScore qts text = 0 := by
  rw [chunkScore, h]
  simp

/-- When no corpus chunk matches any query term, the fallback search
returns no matches at all. -/
theorem searchWithFallback_eq_nil (q : List Char)
    (h : ∀ c ∈ FALLBACK_CORPUS, (chunkMatchedTerms (queryTermsOf q) c).length = 0) :
    searchWithFallback q = [] := by
  simp only [searchWithFallback]
  have hfilter : ((FALLBACK_CORPUS.map fun text =>
      SearchMatch.mk text (chunkScore (queryTermsOf q) text)).filter
        fun m => decide (0 < m.score)) = [] := by
    rw [List.filter_eq_nil_iff]
    intro a ha
    rcases List.mem_map.mp ha with ⟨c, hc, rfl⟩
    simp [chunkScore_of_no_match _ _ (h c hc)]
  rw [hfilter]
  simp

/-- C7 counterexample: splitting the empty query yields one (empty) term,
not zero terms, and that term matches every chunk — the first corpus
chunk scores 1 on the empty query. -/
theorem C7_counterexample :
    queryTermsOf ([]) = [[]] ∧ ([[]] : List (List Char)) ≠ [] ∧
    chunkScore (queryTermsOf ([]))
      (("Medication adherence improves outcomes in diabetes; missed doses are a leading cause of poor control.").data) = 1 := by
  refine ⟨by decide, by decide, ?_⟩
  have hm : (chunkMatchedTerms (queryTermsOf ([]))
      (("Medication adherence improves outcomes in diabetes; missed doses are a leading cause of poor control.").data)).length = 1 := by
    decide
  have hq : (queryTermsOf ([])).length = 1 := by decide
  rw [chunkScore, hm, hq]
  norm_num

/-- C7 amended: tokenizing the empty query yields exactly one empty term;
that term matches every chunk, so the empty query scores 1 on every chunk
and the fallback search returns the first three corpus chunks. -/
theorem C7_empty_query_tokenization :
    queryTermsOf ([]) = [[]] ∧
    searchWithFallback ([]) =
      [SearchMatch.mk (("Medication adherence improves outcomes in diabetes; missed doses are a leading cause of poor control.").data) 1,
       SearchMatch.mk (("Keep an up-to-date medication list; reconcile after every clinic or hospital visit.").data) 1,
       SearchMatch.mk (("Use a pill organizer or phone reminders to reduce unintentional nonadherence.").data) 1] := by
  refine ⟨by decide, ?_⟩
  have hq : (queryTermsOf ([])).length = 1 := by decide
  have hsc : ∀ c ∈ FALLBACK_CORPUS, chunkScore (queryTermsOf ([])) c = 1 := by
    intro c hc
    have hm : (chunkMatchedTerms (queryTermsOf ([])) c).length = 1 := by
      fin_cases hc <;> decide
    rw [chunkScore, hm, hq]
    norm_num
  have hmap : FALLBACK_CORPUS.map
      (fun text => SearchMatch.mk text (chunkScore (queryTermsOf ([])) text)) =
      FALLBACK_CORPUS.map (fun text => SearchMatch.mk text 1) :=
    List.map_congr_left fun c hc => by rw [hsc c hc]
  simp only [searchWithFallback]
  rw [hmap]
  have hkept : ((FALLBACK_CORPUS.map fun text => SearchMatch.mk text 1).filter
      fun m => decide (0 < m.score)) =
      FALLBACK_CORPUS.map fun text => SearchMatch.mk text 1 := by decide
  rw [hkept, List.mergeSort_of_sorted (by decide)]
  decide

/-- C8: the nonsense query yields no matches, and the fallback-mode
pipeline answers it with the fixed no-information disclaimer. -/
theorem C8_no_match_disclaimer :
    searchWithFallback (("zzxxyy nonexistent").data) = [] ∧
    ((FAQSearchService.construct false).handleFAQ none none
      (("zzxxyy nonexistent").data)).2 = FAQResponse.mk NO_INFO_ANSWER [] := by
  have hnil : searchWithFallback (("zzxxyy nonexistent").data) = [] := by
    apply searchWithFallback_eq_nil
    decide
  refine ⟨hnil, ?_⟩
  simp [FAQSearchService.handleFAQ, FAQSearchService.search, FAQSearchService.construct,
    hnil, synthesizeAnswer]

/-! ### Sortedness of the fallback matches (C3) -/

/-- In a duplicate-free list, a pair cannot occur as a sublist in both
orders. -/
theorem eq_of_pair_sublist_both {α : Type} {l : List α} {a b : α} (hnd : l.Nodup)
    (h1 : [a, b].Sublist l) (h2 : [b, a].Sublist l) : a = b := by
  induction l with
  | nil => simp at h1
  | cons x xs ih =>
      have hx : x ∉ xs := (List.nodup_cons.mp hnd).1
      have hnd' : xs.Nodup := (List.nodup_cons.mp hnd).2
      rcases List.sublist_cons_iff.mp h1 with h1' | ⟨r1, hr1, hr1'⟩
      · rcases List.sublist_cons_iff.mp h2 with h2' | ⟨r2, hr2, hr2'⟩
        · exact ih hnd' h1' h2'
        · have hbx : b = x := by injection hr2
          have hbmem : b ∈ xs := h1'.subset (by simp)
          exact absurd (hbx ▸ hbmem) hx
      · rcases List.sublist_cons_iff.mp h2 with h2' | ⟨r2, hr2, hr2'⟩
        · have hax : a = x := by injection hr1
          have hamem : a ∈ xs := h2'.subset (by simp)
          exact absurd (hax ▸ hamem) hx
        · have hax : a = x := by injection hr1
          have hbx : b = x := by injection hr2
          rw [hax, hbx]

/-- In a list that is pairwise ordered by an asymmetric relation, two
members in relation occur in that order as a sublist. -/
theorem pair_sublist_of_pairwise {α : Type} {S : α → α → Prop}
    (hasym : ∀ x y, S x y → S y x → False) :
    ∀ l : List α, l.Pairwise S → ∀ a b, S b a → b ∈ l → a ∈ l → [b, a].Sublist l
  | [], _, a, b, _, hb, _ => absurd hb (by simp)
  | x :: xs, hp, a, b, hS, hb, ha => by
      rcases List.pairwise_cons.mp hp with ⟨hx, hxs⟩
      by_cases hbx : b = x
      · subst hbx
        have hax : a ∈ xs := by
          rcases List.mem_cons.mp ha with h | h
          · exfalso
            subst h
            exact hasym _ _ hS hS
          · exact h
        exact List.cons_sublist_cons.mpr (List.singleton_sublist.mpr hax)
      · have hbxs : b ∈ xs := (List.mem_cons.mp hb).resolve_left hbx
        have haxs : a ∈ xs := by
          rcases List.mem_cons.mp ha with h | h
          · exfalso
            subst h
            exact hasym _ _ hS (hx b hbxs)
          · exact h
        exact (pair_sublist_of_pairwise hasym xs hxs a b hS hbxs haxs).cons x

/-- The comparator is transitive. -/
theorem matchLe_trans : ∀ a b c : SearchMatch,
    matchLe a b = true → matchLe b c = true → matchLe a c = true := by
  intro a b c hab hbc
  simp only [matchLe, decide_eq_true_eq] at hab hbc ⊢
  exact le_trans hbc hab

/-- The comparator is total. -/
theorem matchLe_total : ∀ a b : SearchMatch, (matchLe a b || matchLe b a) = true := by
  intro a b
  simp only [matchLe, Bool.or_eq_true, decide_eq_true_eq]
  exact le_total b.score a.score

/-- Stable sorting a duplicate-free list whose original order is strictly
increasing in corpus ordinal, then taking three, yields at most three
matches, all of positive score when the input was all positive, pairwise
in descending score with ordinal-ascending tie-break. -/
theorem mergeSort_take3_invariant (l : List SearchMatch) (hnd : l.Nodup)
    (hord : l.Pairwise fun a b => corpusOrdinal a < corpusOrdinal b)
    (hpos : ∀ m ∈ l, 0 < m.score) :
    ((l.mergeSort matchLe).take 3).length ≤ 3 ∧
    (∀ m ∈ (l.mergeSort matchLe).take 3, 0 < m.score) ∧
    ((l.mergeSort matchLe).take 3).Pairwise fun a b =>
      b.score < a.score ∨ (a.score = b.score ∧ corpusOrdinal a < corpusOrdinal b) := by
  have hperm := List.mergeSort_perm l matchLe
  have hndo : (l.mergeSort matchLe).Nodup := hperm.symm.nodup hnd
  have hsorted := List.sorted_mergeSort matchLe_trans matchLe_total l
  have hpair : (l.mergeSort matchLe).Pairwise fun a b =>
      b.score < a.score ∨ (a.score = b.score ∧ corpusOrdinal a < corpusOrdinal b) := by
    rw [List.pairwise_iff_forall_sublist]
    intro a b hab
    have hle : matchLe a b = true := List.pairwise_iff_forall_sublist.mp hsorted hab
    have hne : a ≠ b := by
      have hnp : ([a, b] : List SearchMatch).Nodup := List.Nodup.sublist hab hndo
      simpa using (List.nodup_cons.mp hnp).1
    by_cases hlt : b.score < a.score
    · exact Or.inl hlt
    · have hba : a.score ≤ b.score := not_lt.mp hlt
      have hab' : b.score ≤ a.score := by simpa [matchLe] using hle
      have heq : a.score = b.score := le_antisymm hba hab'
      refine Or.inr ⟨heq, ?_⟩
      have hamem : a ∈ l := hperm.subset (hab.subset (by simp))
      have hbmem : b ∈ l := hperm.subset (hab.subset (by simp))
      have htri : corpusOrdinal a < corpusOrdinal b ∨ corpusOrdinal b < corpusOrdinal a := by
        have hsym : Symmetric (fun x y : SearchMatch =>
            corpusOrdinal x < corpusOrdinal y ∨ corpusOrdinal y < corpusOrdinal x) :=
          fun x y h => h.symm
        exact List.Pairwise.forall hsym (hord.imp Or.inl) hamem hbmem hne
      rcases htri with hlt' | hlt'
      · exact hlt'
      · exfalso
        have hpairba : [b, a].Sublist l :=
          pair_sublist_of_pairwise (fun x y h1 h2 => lt_asymm h1 h2) l hord a b hlt'
            hbmem hamem
        have hpw : ([b, a] : List SearchMatch).Pairwise fun x y => matchLe x y = true := by
          have hba' : matchLe b a = true := by simp [matchLe, le_of_eq heq]
          simp [List.pairwise_cons, hba']
        have hsub : [b, a].Sublist (l.mergeSort matchLe) :=
          List.sublist_mergeSort matchLe_trans matchLe_total hpw hpairba
        exact hne (eq_of_pair_sublist_both hndo hab hsub)
  refine ⟨?_, ?_, ?_⟩
  · simp [List.length_take]
  · intro m hm
    exact hpos m (hperm.subset ((List.take_sublist 3 _).subset hm))
  · exact List.Pairwise.sublist (List.take_sublist 3 _) hpair

/-- C3: every fallback search result has at most three matches, each with
strictly positive score, sorted by descending score with ties broken by
ascending corpus ordinal. -/
theorem C3_fallback_matches_invariant (q : List Char) :
    (searchWithFallback q).length ≤ 3 ∧
    (∀ m ∈ searchWithFallback q, 0 < m.score) ∧
    (searchWithFallback q).Pairwise fun a b =>
      b.score < a.score ∨ (a.score = b.score ∧ corpusOrdinal a < corpusOrdinal b) := by
  have hndcorpus : FALLBACK_CORPUS.Nodup := by decide
  have hordcorpus : FALLBACK_CORPUS.Pairwise
      (fun t u => FALLBACK_CORPUS.indexOf t < FALLBACK_CORPUS.indexOf u) := by decide
  have hinj : Function.Injective
      (fun text => SearchMatch.mk text (chunkScore (queryTermsOf q) text)) := by
    intro x y hxy
    simpa using congrArg SearchMatch.text hxy
  have hndscored := hndcorpus.map hinj
  have hordscored : (FALLBACK_CORPUS.map fun text =>
      SearchMatch.mk text (chunkScore (queryTermsOf q) text)).Pairwise
      (fun a b => corpusOrdinal a < corpusOrdinal b) := by
    rw [List.pairwise_map]
    simpa [corpusOrdinal] using hordcorpus
  have hndkept := hndscored.filter (fun m => decide (0 < m.score))
  have hordkept := hordscored.filter (fun m => decide (0 < m.score))
  have hposkept : ∀ m ∈ (FALLBACK_CORPUS.map fun text =>
      SearchMatch.mk text (chunkScore (queryTermsOf q) text)).filter
        (fun m => decide (0 < m.score)), 0 < m.score := by
    intro m hm
    simpa using (List.mem_filter.mp hm).2
  exact mergeSort_take3_invariant _ hndkept hordkept hposkept

end Mediphant
